import Mathlib

/-!
Verification development for the string-analyser service (src/app.js).

The repository contains two near-duplicate variants of the service separated
by a marker in app.js: the first keys the store by the SHA-256 fingerprint,
the second keys it by the trimmed string value and uses a revised
natural-language parser.  Strings are modelled as lists of Unicode code
points (Lean `Char`); JavaScript's `String.prototype.length` (UTF-16 code
units) is modelled by `utf16Len`, which counts astral code points twice.
The SHA-256 digest is kept abstract as a function parameter `sha`:
every statement below is proved for an arbitrary digest function.
-/

/-- The JavaScript whitespace class used by `String.prototype.trim` and by
the regex classes `\s` / `\S` (space, tab, LF, VT, FF, CR, NBSP, Ogham space,
the U+2000 to U+200A range, LS, PS, NNBSP, MMSP, ideographic space, BOM). -/
def isJsWs (c : Char) : Bool :=
  c.toNat = 32 || c.toNat = 9 || c.toNat = 10 || c.toNat = 11 || c.toNat = 12 ||
  c.toNat = 13 || c.toNat = 160 || c.toNat = 5760 ||
  (8192 ≤ c.toNat && c.toNat ≤ 8202) || c.toNat = 8232 || c.toNat = 8233 ||
  c.toNat = 8239 || c.toNat = 8287 || c.toNat = 12288 || c.toNat = 65279

/-- ASCII digit, the regex class `\d` and the digits accepted by `parseInt`. -/
def isDigitC (c : Char) : Bool := 48 ≤ c.toNat && c.toNat ≤ 57

/-- The regex word class `\w` = `[A-Za-z0-9_]`, also used for `\b` boundaries. -/
def isWordChar (c : Char) : Bool :=
  (97 ≤ c.toNat && c.toNat ≤ 122) || (65 ≤ c.toNat && c.toNat ≤ 90) ||
  isDigitC c || c.toNat = 95

/-- The character class `[a-z0-9]` of app.js (palindrome sanitizing and the
variant-2 contains-character capture). -/
def isLowerAlnum (c : Char) : Bool := (97 ≤ c.toNat && c.toNat ≤ 122) || isDigitC c

/-- `String.prototype.toLowerCase`, per code point.  Only the ASCII range
matters for the properties proved here; non-ASCII code points are kept. -/
def jsToLower (c : Char) : Char :=
  if 65 ≤ c.toNat && c.toNat ≤ 90 then Char.ofNat (c.toNat + 32) else c

def lowerStr (l : List Char) : List Char := l.map jsToLower

/-- Left trim: drop leading JavaScript whitespace. -/
def trimL (l : List Char) : List Char := l.dropWhile isJsWs

/-- Right trim: drop trailing JavaScript whitespace. -/
def trimR (l : List Char) : List Char := (trimL l.reverse).reverse

/-- `String.prototype.trim`. -/
def jsTrim (l : List Char) : List Char := trimR (trimL l)

/-- JavaScript `value.length`: UTF-16 code units — an astral code point
(at or above U+10000) is a surrogate pair and counts 2. -/
def utf16Len (l : List Char) : Nat :=
  l.foldr (fun c a => (if 65536 ≤ c.toNat then 2 else 1) + a) 0

/-- Helper for `wordCount`: counts maximal runs of non-whitespace characters;
the flag records whether the scan is currently inside such a run. -/
def wcAux : Bool → List Char → Nat
  | _, [] => 0
  | inWord, c :: t =>
    if isJsWs c then wcAux false t
    else (if inWord then 0 else 1) + wcAux true t

/-- `value.match(/\S+/g)` match count (0 when there is no match). -/
def wordCount (l : List Char) : Nat := wcAux false l

/-- One step of building the character-frequency map: JavaScript object
update `map[char] = (map[char] || 0) + 1`, with insertion order kept. -/
def bump : List (Char × Nat) → Char → List (Char × Nat)
  | [], c => [(c, 1)]
  | (k, n) :: t, c => if k = c then (k, n + 1) :: t else (k, n) :: bump t c

/-- The character-frequency map of app.js: `for (const char of value)`
iterates code points, so keys are code points. -/
def freqMap (l : List Char) : List (Char × Nat) := l.foldl bump []

def sumCounts (m : List (Char × Nat)) : Nat := m.foldr (fun p a => p.2 + a) 0

def keysOf (m : List (Char × Nat)) : List Char := m.map Prod.fst

/-- `lowerCaseValue.replace(/[^a-z0-9]/g, "")`. -/
def sanitize (l : List Char) : List Char := l.filter isLowerAlnum

structure Props where
  length : Nat
  is_palindrome : Bool
  character_frequency : List (Char × Nat)
  unique_characters : Nat
  word_count : Nat
deriving DecidableEq

structure AnalyzedRecord where
  id : List Char
  value : List Char
  properties : Props
deriving DecidableEq

/-- `analyzeString` of app.js (identical in both variants); `created_at`
is a wall-clock timestamp and is not modelled.  `sha` abstracts the
SHA-256 hex digest. -/
def analyzeString (sha : List Char → List Char) (value : List Char) : AnalyzedRecord :=
  { id := sha value
    value := value
    properties :=
      { length := utf16Len value
        is_palindrome :=
          (sanitize (lowerStr value) == (sanitize (lowerStr value)).reverse) &&
          decide (0 < (sanitize (lowerStr value)).length)
        character_frequency := freqMap value
        unique_characters := (freqMap value).length
        word_count := wordCount value } }

/-- The `POST /strings` handler trims before analyzing (app.js lines
172/177 and 496/503); `analyze` is that composition, matching §4.1 of the
spec where trimming is step 1 of the Analyzer. -/
def analyze (sha : List Char → List Char) (s : List Char) : AnalyzedRecord :=
  analyzeString sha (jsTrim s)

def digitsToNat (d : List Char) : Nat := d.foldl (fun a c => a * 10 + (c.toNat - 48)) 0

def parseDigits (l : List Char) : Option Nat :=
  let d := l.takeWhile isDigitC
  if d.isEmpty then none else some (digitsToNat d)

/-- JavaScript `parseInt(v, 10)`: leading whitespace, optional sign, then a
maximal (possibly empty — then NaN, modelled as `none`) run of digits. -/
def jsParseInt (l : List Char) : Option Int :=
  match trimL l with
  | '+' :: r => (parseDigits r).map (fun n => (n : Int))
  | '-' :: r => (parseDigits r).map (fun n => -(n : Int))
  | r => (parseDigits r).map (fun n => (n : Int))

def startsList : List Char → List Char → Bool
  | [], _ => true
  | _ :: _, [] => false
  | p :: ps, c :: cs => p = c && startsList ps cs

/-- `q.includes(pat)`. -/
def listContainsSub (pat : List Char) : List Char → Bool
  | [] => pat.isEmpty
  | c :: t => startsList pat (c :: t) || listContainsSub pat t

def litTrue : List Char := "true".toList

/-- The filter set handed to `applyFilters`.  Values are raw strings, as in
the code: query-string parameters arrive as strings and are parsed (or
skipped) inside the engine. -/
structure QueryFilters where
  is_palindrome : Option (List Char) := none
  min_length : Option (List Char) := none
  max_length : Option (List Char) := none
  word_count : Option (List Char) := none
  contains_character : Option (List Char) := none
deriving DecidableEq

def palCond (o : Option (List Char)) (r : AnalyzedRecord) : Bool :=
  match o with
  | none => true
  | some s => r.properties.is_palindrome == (lowerStr s == litTrue)

def minCond (o : Option (List Char)) (r : AnalyzedRecord) : Bool :=
  match o with
  | none => true
  | some s =>
    match jsParseInt s with
    | none => true
    | some n => decide (n ≤ (r.properties.length : Int))

def maxCond (o : Option (List Char)) (r : AnalyzedRecord) : Bool :=
  match o with
  | none => true
  | some s =>
    match jsParseInt s with
    | none => true
    | some n => decide ((r.properties.length : Int) ≤ n)

def wcCond (o : Option (List Char)) (r : AnalyzedRecord) : Bool :=
  match o with
  | none => true
  | some s =>
    match jsParseInt s with
    | none => true
    | some n => decide ((r.properties.word_count : Int) = n)

def contCond (o : Option (List Char)) (r : AnalyzedRecord) : Bool :=
  match o with
  | none => true
  | some s =>
    if s.isEmpty then true
    else listContainsSub (lowerStr s) (lowerStr r.value)

/-- The `is_palindrome` block of `applyFilters`. -/
def palStage (o : Option (List Char)) (d : List AnalyzedRecord) : List AnalyzedRecord :=
  match o with
  | none => d
  | some _ => d.filter (palCond o)

/-- The `min_length` block: parse, and skip the filter when NaN. -/
def minStage (o : Option (List Char)) (d : List AnalyzedRecord) : List AnalyzedRecord :=
  match o with
  | none => d
  | some s =>
    match jsParseInt s with
    | none => d
    | some n => d.filter (fun r => decide (n ≤ (r.properties.length : Int)))

/-- The `max_length` block. -/
def maxStage (o : Option (List Char)) (d : List AnalyzedRecord) : List AnalyzedRecord :=
  match o with
  | none => d
  | some s =>
    match jsParseInt s with
    | none => d
    | some n => d.filter (fun r => decide ((r.properties.length : Int) ≤ n))

/-- The `word_count` block. -/
def wcStage (o : Option (List Char)) (d : List AnalyzedRecord) : List AnalyzedRecord :=
  match o with
  | none => d
  | some s =>
    match jsParseInt s with
    | none => d
    | some n => d.filter (fun r => decide ((r.properties.word_count : Int) = n))

/-- The `contains_character` block: `if (filters.contains_character)` is
JavaScript truthiness, so the empty string also skips the filter. -/
def contStage (o : Option (List Char)) (d : List AnalyzedRecord) : List AnalyzedRecord :=
  match o with
  | none => d
  | some s =>
    if s.isEmpty then d
    else d.filter (fun r => listContainsSub (lowerStr s) (lowerStr r.value))

/-- `applyFilters(data, filters)` — identical in both variants: five
sequential filter blocks over the running result list. -/
def applyFilters (d : List AnalyzedRecord) (f : QueryFilters) : List AnalyzedRecord :=
  contStage f.contains_character
    (wcStage f.word_count
      (maxStage f.max_length
        (minStage f.min_length
          (palStage f.is_palindrome d))))

/-- Conjunction of the per-filter predicates of §4.3 of the spec: a present
filter keeps exactly the records satisfying it, an absent one keeps all
(a present numeric value that does not parse is outside §4.3's contract
and keeps all, see the Filter Engine skip behaviour). -/
def satisfiesAll (f : QueryFilters) (r : AnalyzedRecord) : Bool :=
  palCond f.is_palindrome r &&
    (minCond f.min_length r &&
      (maxCond f.max_length r &&
        (wcCond f.word_count r && contCond f.contains_character r)))

def litPalindrome : List Char := "palindrome".toList
def litPalindromic : List Char := "palindromic".toList
def litSingleWord : List Char := "single word".toList
def litAlt1 : List Char := "contains the letter ".toList
def litAlt2 : List Char := "contains character ".toList
def litAlt3 : List Char := "has the letter ".toList
def litAlt4 : List Char := "with character ".toList
def litThanSp : List Char := " than ".toList
def litLonger : List Char := "longer".toList
def litShorter : List Char := "shorter".toList
def litGreater : List Char := "greater".toList
def litLess : List Char := "less".toList
def litThan : List Char := "than".toList
def litSingle : List Char := "single".toList
def litOne : List Char := "one".toList
def litWord : List Char := "word".toList
def litFirst : List Char := "first".toList
def litVowel : List Char := "vowel".toList
def litThe : List Char := "the".toList
def litLetter : List Char := "letter".toList
def litCharacter : List Char := "character".toList
def litExactly : List Char := "exactly".toList
def litOf : List Char := "of".toList
def litContains : List Char := "contains".toList
def litContaining : List Char := "containing".toList
def litHas : List Char := "has".toList
def litWith : List Char := "with".toList

/-- Strip a literal pattern from the front, returning the remainder. -/
def dropLit : List Char → List Char → Option (List Char)
  | [], l => some l
  | _ :: _, [] => none
  | p :: ps, c :: cs => if c = p then dropLit ps cs else none

/-- Regex `\s+`: at least one whitespace character, consumed greedily. -/
def wsPlus : List Char → Option (List Char)
  | [] => none
  | c :: t => if isJsWs c then some (t.dropWhile isJsWs) else none

/-- Regex `\s*`. -/
def wsStar (l : List Char) : List Char := l.dropWhile isJsWs

/-- Regex `\b` after a word character: next char absent or not a word char. -/
def nextNonWord : List Char → Bool
  | [] => true
  | c :: _ => !isWordChar c

/-- Regex `(\d+)`: a maximal nonempty digit run and the remainder. -/
def digitsSeg (l : List Char) : Option (Nat × List Char) :=
  let d := l.takeWhile isDigitC
  if d.isEmpty then none else some (digitsToNat d, l.dropWhile isDigitC)

/-- Leftmost regex match without a leading `\b`: try the attempt at every
position left to right. -/
def scanPlain {α : Type} (attempt : List Char → Option α) : List Char → Option α
  | [] => none
  | c :: t =>
    match attempt (c :: t) with
    | some x => some x
    | none => scanPlain attempt t

/-- Leftmost regex match for a pattern beginning with `\b` followed by a word
character: the attempt runs only at positions preceded by a non-word
character (or at the start). -/
def scanBd {α : Type} (attempt : List Char → Option α) : Bool → List Char → Option α
  | _, [] => none
  | prevW, c :: t =>
    match (if prevW then (none : Option α) else attempt (c :: t)) with
    | some x => some x
    | none => scanBd attempt (isWordChar c) t

/-- Variant 1 contains-character regex
`contains the letter (\w)|contains character (\w)|has the letter (\w)|with character (\w)`:
at a given position the four alternatives are mutually exclusive (their
literals diverge before the capture).  The result records which capture
group matched: `some (some c)` means group 1 (the only group the code
reads), `some none` means one of groups 2 to 4. -/
def v1ContainsAttempt (l : List Char) : Option (Option Char) :=
  match dropLit litAlt1 l with
  | some r =>
    match r with
    | c :: _ => if isWordChar c then some (some c) else none
    | [] => none
  | none =>
    match dropLit litAlt2 l with
    | some r =>
      match r with
      | c :: _ => if isWordChar c then some none else none
      | [] => none
    | none =>
      match dropLit litAlt3 l with
      | some r =>
        match r with
        | c :: _ => if isWordChar c then some none else none
        | [] => none
      | none =>
        match dropLit litAlt4 l with
        | some r =>
          match r with
          | c :: _ => if isWordChar c then some none else none
          | [] => none
        | none => none

/-- One alternative of the variant-1 length regex
`(longer|shorter|greater|less) than (\d+)` (literal single spaces, no `\b`).
`isMin` tags longer/greater versus shorter/less. -/
def v1LenWordAttempt (isMin : Bool) (w : List Char) (l : List Char) : Option (Bool × Nat) :=
  match dropLit w l with
  | none => none
  | some r1 =>
    match dropLit litThanSp r1 with
    | none => none
    | some r2 =>
      match digitsSeg r2 with
      | none => none
      | some (n, _) => some (isMin, n)

def v1LengthAttempt (l : List Char) : Option (Bool × Nat) :=
  match v1LenWordAttempt true litLonger l with
  | some x => some x
  | none =>
    match v1LenWordAttempt false litShorter l with
    | some x => some x
    | none =>
      match v1LenWordAttempt true litGreater l with
      | some x => some x
      | none => v1LenWordAttempt false litLess l

/-- The structured filter set produced by `parseNaturalLanguage`. -/
structure NLFilters where
  is_palindrome : Option Bool := none
  word_count : Option Nat := none
  contains_character : Option Char := none
  min_length : Option Int := none
  max_length : Option Int := none
deriving DecidableEq

inductive NLResult where
  | conflict
  | ok (f : NLFilters)
deriving DecidableEq

/-- The filters collected by variant 1's `parseNaturalLanguage` before its
conflict check.  `contains_character` is set only when capture group 1 is
defined (`containsMatch && containsMatch[1]`), i.e. only for the literal
form `contains the letter X`.  A single length regex fires at most once, so
at most one of min/max is ever set. -/
def nlFilters_v1 (q : List Char) : NLFilters :=
  { is_palindrome :=
      if listContainsSub litPalindrome q || listContainsSub litPalindromic q then some true
      else none
    word_count := if listContainsSub litSingleWord q then some 1 else none
    contains_character :=
      match scanPlain v1ContainsAttempt q with
      | some (some c) => some c
      | _ => none
    min_length :=
      match scanPlain v1LengthAttempt q with
      | some (true, n) => some ((n : Int) + 1)
      | _ => none
    max_length :=
      match scanPlain v1LengthAttempt q with
      | some (false, n) => some ((n : Int) - 1)
      | _ => none }

/-- The final conflict check shared by both parser variants. -/
def conflictCheck (f : NLFilters) : NLResult :=
  match f.min_length, f.max_length with
  | some a, some b => if b < a then .conflict else .ok f
  | _, _ => .ok f

/-- Variant 1 `parseNaturalLanguage`: lower-case (no trim), collect, check. -/
def parseNaturalLanguage_v1 (query : List Char) : NLResult :=
  conflictCheck (nlFilters_v1 (lowerStr query))

def dropVerb (l : List Char) : Option (List Char) :=
  match dropLit litContains l with
  | some r => some r
  | none =>
    match dropLit litContaining l with
    | some r => some r
    | none =>
      match dropLit litHas l with
      | some r => some r
      | none => dropLit litWith l

def dropLetterChar (l : List Char) : Option (List Char) :=
  match dropLit litLetter l with
  | some r => some r
  | none => dropLit litCharacter l

/-- Variant 2 contains-character regex
`(?:contains|containing|has|with)\s+(?:the\s+)?(?:letter|character)\s*([a-z0-9])`
at one position.  If the optional `the\s+` group matches but the rest fails,
the fallback without it also fails (the remainder then starts with "the"),
matching regex backtracking. -/
def v2ContainsAttempt (l : List Char) : Option Char :=
  match dropVerb l with
  | none => none
  | some r1 =>
    match wsPlus r1 with
    | none => none
    | some r2 =>
      match
        (match dropLit litThe r2 with
         | some ra =>
           match wsPlus ra with
           | some rb => dropLetterChar rb
           | none => dropLetterChar r2
         | none => dropLetterChar r2) with
      | none => none
      | some r4 =>
        match wsStar r4 with
        | c :: _ => if isLowerAlnum c then some c else none
        | [] => none

def containsScan_v2 (q : List Char) : Option Char := scanPlain v2ContainsAttempt q

/-- Regex `\bfirst\s+vowel\b` at one position (after the leading boundary). -/
def firstVowelAttempt (l : List Char) : Option Unit :=
  match dropLit litFirst l with
  | none => none
  | some r1 =>
    match wsPlus r1 with
    | none => none
    | some r2 =>
      match dropLit litVowel r2 with
      | none => none
      | some r3 => if nextNonWord r3 then some () else none

def firstVowelTest (q : List Char) : Bool := (scanBd firstVowelAttempt false q).isSome

/-- Regex `\b(w1|w2)\s+than\s+(\d+)\b` at one position; the two word
alternatives never both prefix-match the same text. -/
def lenAttempt (wa wb : List Char) (l : List Char) : Option Nat :=
  match
    (match dropLit wa l with
     | some r => some r
     | none => dropLit wb l) with
  | none => none
  | some r1 =>
    match wsPlus r1 with
    | none => none
    | some r2 =>
      match dropLit litThan r2 with
      | none => none
      | some r3 =>
        match wsPlus r3 with
        | none => none
        | some r4 =>
          match digitsSeg r4 with
          | none => none
          | some (n, r5) => if nextNonWord r5 then some n else none

def longerScan (q : List Char) : Option Nat := scanBd (lenAttempt litLonger litGreater) false q

def shorterScan (q : List Char) : Option Nat := scanBd (lenAttempt litShorter litLess) false q

/-- Regex `\b(?:exactly|of)\s+(\d+)\s+characters?\b` at one position. -/
def exactlyAttempt (l : List Char) : Option Nat :=
  match
    (match dropLit litExactly l with
     | some r => some r
     | none => dropLit litOf l) with
  | none => none
  | some r1 =>
    match wsPlus r1 with
    | none => none
    | some r2 =>
      match digitsSeg r2 with
      | none => none
      | some (n, r3) =>
        match wsPlus r3 with
        | none => none
        | some r4 =>
          match dropLit litCharacter r4 with
          | none => none
          | some r5 =>
            match r5 with
            | 's' :: r6 => if nextNonWord r6 then some n else none
            | _ => if nextNonWord r5 then some n else none

def exactlyScan (q : List Char) : Option Nat := scanBd exactlyAttempt false q

/-- Regex `\b(single|one)\s+word\b` at one position. -/
def singleOneAttempt (l : List Char) : Option Unit :=
  match
    (match dropLit litSingle l with
     | some r => some r
     | none => dropLit litOne l) with
  | none => none
  | some r1 =>
    match wsPlus r1 with
    | none => none
    | some r2 =>
      match dropLit litWord r2 with
      | none => none
      | some r3 => if nextNonWord r3 then some () else none

def singleOneScan (q : List Char) : Bool := (scanBd singleOneAttempt false q).isSome

/-- Regex `/\bpalindrome|palindromic\b/.test(q)`: the alternation groups as
`(\bpalindrome)|(palindromic\b)`. -/
def palAttempt1 (l : List Char) : Option Unit :=
  match dropLit litPalindrome l with
  | some _ => some ()
  | none => none

def palAttempt2 (l : List Char) : Option Unit :=
  match dropLit litPalindromic l with
  | some r => if nextNonWord r then some () else none
  | none => none

def palTest_v2 (q : List Char) : Bool :=
  (scanBd palAttempt1 false q).isSome || (scanPlain palAttempt2 q).isSome

/-- The filters collected by variant 2's `parseNaturalLanguage` before its
conflict check.  The code sets `contains_character` from the verb regex and
then lets the `first vowel` heuristic overwrite it; `exactly N characters`
overwrites both length bounds after the longer/shorter rules. -/
def nlFilters_v2 (q : List Char) : NLFilters :=
  { is_palindrome := if palTest_v2 q then some true else none
    word_count := if singleOneScan q then some 1 else none
    contains_character := if firstVowelTest q then some 'a' else containsScan_v2 q
    min_length :=
      match exactlyScan q with
      | some n => some (n : Int)
      | none =>
        match longerScan q with
        | some n => some ((n : Int) + 1)
        | none => none
    max_length :=
      match exactlyScan q with
      | some n => some (n : Int)
      | none =>
        match shorterScan q with
        | some n => some ((n : Int) - 1)
        | none => none }

/-- Variant 2 `parseNaturalLanguage`: lower-case, trim, empty guard,
collect, conflict check. -/
def parseNaturalLanguage_v2 (query : List Char) : NLResult :=
  if (jsTrim (lowerStr query)).isEmpty then .ok {}
  else conflictCheck (nlFilters_v2 (jsTrim (lowerStr query)))

/-- The in-memory store: a JavaScript object used as an insertion-ordered
map from key to record. -/
abbrev StoreT := List (List Char × AnalyzedRecord)

inductive CreateResult where
  | emptyValue
  | duplicate
  | created (r : AnalyzedRecord)
deriving DecidableEq

/-- The `POST /strings` handler, for a string-typed body value (the missing
field and wrong-type branches concern non-string JSON and are outside this
model).  `keyOf` applied to the trimmed value is the storage key: the
fingerprint `sha` in variant 1, the identity in variant 2.  The duplicate
check is modelled here as a lookup among the stored entries only; the real
`stringStore[key]` is property-access truthiness and also sees the inherited
`Object.prototype` names, which only rejects MORE creates — the faithful
check is `createStringChain` below.  This own-keys version is used for the
reachable-state invariant, whose state set is therefore a superset of the
real program's. -/
def createString (sha keyOf : List Char → List Char) (store : StoreT) (value : List Char) :
    StoreT × CreateResult :=
  if (jsTrim value).isEmpty then (store, .emptyValue)
  else
    match List.lookup (keyOf (jsTrim value)) store with
    | some _ => (store, .duplicate)
    | none =>
      (store ++ [(keyOf (jsTrim value), analyzeString sha (jsTrim value))],
       .created (analyzeString sha (jsTrim value)))

/-- The `DELETE /strings/:key` handler: 404 leaves the store unchanged,
otherwise the key is removed. -/
def deleteString (store : StoreT) (k : List Char) : StoreT × Bool :=
  match List.lookup k store with
  | none => (store, false)
  | some _ => (store.filter (fun p => !(p.1 == k)), true)

/-- Store states reachable from the empty store through the two mutating
endpoints.  Built on the own-keys `createString`, whose duplicate check
rejects fewer creates than the real prototype-chain check, so every store
state of the real program is reachable here and an invariant proved over
these states covers all real states. -/
inductive Reachable (sha keyOf : List Char → List Char) : StoreT → Prop where
  | init : Reachable sha keyOf []
  | create (s : StoreT) (v : List Char) :
      Reachable sha keyOf s → Reachable sha keyOf (createString sha keyOf s v).1
  | del (s : StoreT) (k : List Char) :
      Reachable sha keyOf s → Reachable sha keyOf (deleteString s k).1

def litHi : List Char := "hi".toList
def litHiPad : List Char := " hi ".toList
def litWsOnly : List Char := "   ".toList
def litAbc : List Char := "abc".toList
def litEmojiG : List Char := "😀".toList
def litEmojiS : List Char := "🙂".toList
def queryConf : List Char := "strings longer than 20 but shorter than 5".toList
def queryContZ : List Char := "strings containing the letter z".toList
def queryHasZ : List Char := "has the letter z".toList
def queryOneWord : List Char := "one word".toList
def queryOneWordPal : List Char := "one word strings".toList
def recHi : AnalyzedRecord := analyzeString (fun l => l) litHi

def litConstructor : List Char := "constructor".toList

/-- The own property names of `Object.prototype`, inherited by the plain
object `stringStore = {}` through the prototype chain.  Every one of their
values (functions, or `Object.prototype` itself for the proto accessor) is
truthy. -/
def protoKeys : List (List Char) :=
  [ "constructor".toList, "hasOwnProperty".toList, "isPrototypeOf".toList,
    "propertyIsEnumerable".toList, "toLocaleString".toList, "toString".toList,
    "valueOf".toList, "__proto__".toList, "__defineGetter__".toList,
    "__defineSetter__".toList, "__lookupGetter__".toList, "__lookupSetter__".toList ]

/-- Truthiness of `stringStore[k]` for a plain-object store whose own keys
are the stored entries: an own stored key (records are objects, hence
truthy), or a property inherited from `Object.prototype`. -/
def jsObjTruthy (store : StoreT) (k : List Char) : Bool :=
  (List.lookup k store).isSome || protoKeys.contains k

/-- The `POST /strings` handler with the duplicate check modelled faithfully
as JavaScript property-access truthiness (`if (stringStore[key])`), which
also sees the `Object.prototype` names: in the value-keyed variant a trimmed
value such as "constructor" is reported duplicate even on an empty store.
`keyOf` applied to the trimmed value is the storage key: the fingerprint
`sha` in variant 1, the identity in variant 2. -/
def createStringChain (sha keyOf : List Char → List Char) (store : StoreT)
    (value : List Char) : StoreT × CreateResult :=
  if (jsTrim value).isEmpty then (store, .emptyValue)
  else if jsObjTruthy store (keyOf (jsTrim value)) then (store, .duplicate)
  else
    (store ++ [(keyOf (jsTrim value), analyzeString sha (jsTrim value))],
     .created (analyzeString sha (jsTrim value)))

/-- Spec-side sanitizing, from the words of §4.1 step 4: lower-case the
value, then delete every character that is not an ASCII letter or digit
(the letter ranges a-z and A-Z and the digits 0-9). -/
def specStrip (value : List Char) : List Char :=
  (lowerStr value).filter
    (fun c =>
      (97 ≤ c.toNat && c.toNat ≤ 122) || (65 ≤ c.toNat && c.toNat ≤ 90) || isDigitC c)

theorem isEmpty_false_of_ne {α : Type} (l : List α) (h : l ≠ []) : l.isEmpty = false := by
  cases l with
  | nil => exact absurd rfl h
  | cons a t => rfl

theorem eq_nil_of_isEmpty {α : Type} (l : List α) (h : l.isEmpty = true) : l = [] := by
  cases l with
  | nil => rfl
  | cons a t => simp [List.isEmpty] at h

theorem trimL_trimL (l : List Char) : trimL (trimL l) = trimL l := by
  induction l with
  | nil => rfl
  | cons c t ih =>
    cases h : isJsWs c with
    | true =>
      have he : trimL (c :: t) = trimL t := by simp [trimL, List.dropWhile_cons, h]
      rw [he]; exact ih
    | false =>
      have he : trimL (c :: t) = c :: t := by simp [trimL, List.dropWhile_cons, h]
      rw [he, he]

theorem trimL_suffix (l : List Char) : ∃ s, s ++ trimL l = l := by
  induction l with
  | nil => exact ⟨[], rfl⟩
  | cons c t ih =>
    cases h : isJsWs c with
    | true =>
      obtain ⟨s, hs⟩ := ih
      refine ⟨c :: s, ?_⟩
      have he : trimL (c :: t) = trimL t := by simp [trimL, List.dropWhile_cons, h]
      rw [he, List.cons_append, hs]
    | false =>
      refine ⟨[], ?_⟩
      simp [trimL, List.dropWhile_cons, h]

theorem trimR_pref (l : List Char) : ∃ s, trimR l ++ s = l := by
  obtain ⟨s, hs⟩ := trimL_suffix l.reverse
  refine ⟨s.reverse, ?_⟩
  have h2 := congrArg List.reverse hs
  simpa [trimR, List.reverse_append] using h2

theorem length_dropWhile_le' {α : Type} (p : α → Bool) (l : List α) :
    (l.dropWhile p).length ≤ l.length := by
  induction l with
  | nil => simp
  | cons a t ih =>
    cases h : p a with
    | true =>
      rw [List.dropWhile_cons, if_pos (by rw [h])]
      exact Nat.le_trans ih (by simp)
    | false =>
      rw [List.dropWhile_cons, if_neg (by rw [h]; exact Bool.false_ne_true)]

theorem trimL_trimR (m : List Char) (hm : trimL m = m) : trimL (trimR m) = trimR m := by
  cases hE : trimR m with
  | nil => rfl
  | cons a s =>
    obtain ⟨r, hr⟩ := trimR_pref m
    rw [hE] at hr
    have hws : isJsWs a = false := by
      cases hA : isJsWs a with
      | false => rfl
      | true =>
        exfalso
        rw [← hr] at hm
        simp only [List.cons_append, trimL, List.dropWhile_cons, hA, if_true] at hm
        have hlen := congrArg List.length hm
        simp only [List.length_cons] at hlen
        have hle := length_dropWhile_le' isJsWs (s ++ r)
        omega
    simp [trimL, List.dropWhile_cons, hws]

theorem trimR_trimR (l : List Char) : trimR (trimR l) = trimR l := by
  unfold trimR
  rw [List.reverse_reverse, trimL_trimL]

theorem jsTrim_idem (l : List Char) : jsTrim (jsTrim l) = jsTrim l := by
  unfold jsTrim
  rw [trimL_trimR (trimL l) (trimL_trimL l), trimR_trimR]

theorem trimL_jsTrim (l : List Char) : trimL (jsTrim l) = jsTrim l := by
  unfold jsTrim
  exact trimL_trimR (trimL l) (trimL_trimL l)

theorem trimL_head_nw (l : List Char) (h : trimL l ≠ []) :
    ∃ c t, trimL l = c :: t ∧ isJsWs c = false := by
  induction l with
  | nil => exact absurd rfl h
  | cons a t ih =>
    cases hA : isJsWs a with
    | true =>
      have he : trimL (a :: t) = trimL t := by simp [trimL, List.dropWhile_cons, hA]
      rw [he] at h ⊢
      exact ih h
    | false =>
      refine ⟨a, t, ?_, hA⟩
      simp [trimL, List.dropWhile_cons, hA]

theorem jsTrim_nonws (l : List Char) (h : jsTrim l ≠ []) :
    ∃ c ∈ jsTrim l, isJsWs c = false := by
  have h2 : trimL (jsTrim l) ≠ [] := by rw [trimL_jsTrim]; exact h
  obtain ⟨c, t, hct, hc⟩ := trimL_head_nw (jsTrim l) h2
  rw [trimL_jsTrim] at hct
  exact ⟨c, by rw [hct]; exact List.mem_cons_self c t, hc⟩

theorem wc_pos (l : List Char) (hex : ∃ c ∈ l, isJsWs c = false) : 1 ≤ wcAux false l := by
  induction l with
  | nil => obtain ⟨c, hc, _⟩ := hex; cases hc
  | cons a t ih =>
    obtain ⟨c, hc, hw⟩ := hex
    cases hA : isJsWs a with
    | true =>
      have hct : c ∈ t := by
        rcases List.mem_cons.mp hc with h1 | h1
        · rw [h1] at hw; rw [hw] at hA; cases hA
        · exact h1
      simpa [wcAux, hA] using ih ⟨c, hct, hw⟩
    | false =>
      have he : wcAux false (a :: t) = 1 + wcAux true t := by simp [wcAux, hA]
      rw [he]; omega

theorem utf16_pos (l : List Char) (h : l ≠ []) : 1 ≤ utf16Len l := by
  cases l with
  | nil => exact absurd rfl h
  | cons c t =>
    simp only [utf16Len, List.foldr_cons]
    split <;> omega

theorem utf16_bmp (l : List Char) (h : ∀ c ∈ l, c.toNat < 65536) : utf16Len l = l.length := by
  induction l with
  | nil => rfl
  | cons c t ih =>
    have hc := h c (List.mem_cons_self c t)
    have ht : ∀ x ∈ t, x.toNat < 65536 := fun x hx => h x (List.mem_cons_of_mem c hx)
    have hrec := ih ht
    simp only [utf16Len, List.foldr_cons, List.length_cons] at *
    rw [if_neg (by omega)]
    omega

theorem sum_bump (m : List (Char × Nat)) (c : Char) :
    sumCounts (bump m c) = sumCounts m + 1 := by
  induction m with
  | nil => rfl
  | cons p t ih =>
    obtain ⟨k, n⟩ := p
    by_cases h : k = c
    · simp only [bump, if_pos h, sumCounts, List.foldr_cons]
      omega
    · simp only [bump, if_neg h, sumCounts, List.foldr_cons] at *
      omega

theorem sum_foldl (l : List Char) : ∀ m, sumCounts (l.foldl bump m) = sumCounts m + l.length := by
  induction l with
  | nil => intro m; simp
  | cons c t ih =>
    intro m
    simp only [List.foldl_cons, List.length_cons]
    rw [ih (bump m c), sum_bump]
    omega

theorem sum_freq (l : List Char) : sumCounts (freqMap l) = l.length := by
  have h := sum_foldl l []
  simpa [freqMap, sumCounts] using h

theorem mem_keys_bump (m : List (Char × Nat)) (c x : Char)
    (h : x ∈ keysOf (bump m c)) : x = c ∨ x ∈ keysOf m := by
  induction m with
  | nil =>
    simp only [bump, keysOf, List.map_cons, List.map_nil, List.mem_singleton] at h
    exact Or.inl h
  | cons p t ih =>
    obtain ⟨k, n⟩ := p
    by_cases hk : k = c
    · simp only [bump, if_pos hk, keysOf, List.map_cons, List.mem_cons] at h ⊢
      exact Or.inr h
    · simp only [bump, if_neg hk, keysOf, List.map_cons, List.mem_cons] at h ⊢
      rcases h with h | h
      · exact Or.inr (Or.inl h)
      · rcases ih h with h2 | h2
        · exact Or.inl h2
        · exact Or.inr (Or.inr h2)

theorem nodup_keys_bump (m : List (Char × Nat)) (c : Char)
    (h : (keysOf m).Nodup) : (keysOf (bump m c)).Nodup := by
  induction m with
  | nil => simp [bump, keysOf]
  | cons p t ih =>
    obtain ⟨k, n⟩ := p
    simp only [keysOf, List.map_cons, List.nodup_cons] at h
    obtain ⟨hk, ht⟩ := h
    by_cases hkc : k = c
    · simp only [bump, if_pos hkc, keysOf, List.map_cons, List.nodup_cons]
      exact ⟨hk, ht⟩
    · simp only [bump, if_neg hkc, keysOf, List.map_cons, List.nodup_cons]
      refine ⟨?_, ih ht⟩
      intro hmem
      rcases mem_keys_bump t c k hmem with h2 | h2
      · exact hkc h2
      · exact hk h2

theorem nodup_keys_foldl (l : List Char) :
    ∀ m, (keysOf m).Nodup → (keysOf (l.foldl bump m)).Nodup := by
  induction l with
  | nil => intro m hm; simpa using hm
  | cons c t ih =>
    intro m hm
    simp only [List.foldl_cons]
    exact ih (bump m c) (nodup_keys_bump m c hm)

theorem nodup_keys_freq (l : List Char) : (keysOf (freqMap l)).Nodup := by
  have h := nodup_keys_foldl l [] (by simp [keysOf])
  simpa [freqMap] using h

theorem lookup_append_self (store : StoreT) (k : List Char) (r : AnalyzedRecord)
    (h : List.lookup k store = none) :
    List.lookup k (store ++ [(k, r)]) = some r := by
  induction store with
  | nil => simp [List.lookup]
  | cons p t ih =>
    obtain ⟨a, b⟩ := p
    cases hka : (k == a) with
    | true => simp [List.lookup, hka] at h
    | false =>
      simp only [List.cons_append, List.lookup, hka] at h ⊢
      exact ih h

theorem palStage_eq (o : Option (List Char)) (d : List AnalyzedRecord) :
    palStage o d = d.filter (palCond o) := by
  cases o with
  | none =>
    have h : palCond none = fun _ : AnalyzedRecord => true := rfl
    show d = d.filter (palCond none)
    rw [h, List.filter_true]
  | some s => rfl

theorem minStage_eq (o : Option (List Char)) (d : List AnalyzedRecord) :
    minStage o d = d.filter (minCond o) := by
  cases o with
  | none =>
    have h : minCond none = fun _ : AnalyzedRecord => true := rfl
    show d = d.filter (minCond none)
    rw [h, List.filter_true]
  | some s =>
    cases h : jsParseInt s with
    | none =>
      have hc : minCond (some s) = fun _ : AnalyzedRecord => true := by
        funext r; simp [minCond, h]
      simp [minStage, h, hc, List.filter_true]
    | some n =>
      have hc : minCond (some s) =
          fun r : AnalyzedRecord => decide (n ≤ (r.properties.length : Int)) := by
        funext r; simp [minCond, h]
      simp [minStage, h, hc]

theorem maxStage_eq (o : Option (List Char)) (d : List AnalyzedRecord) :
    maxStage o d = d.filter (maxCond o) := by
  cases o with
  | none =>
    have h : maxCond none = fun _ : AnalyzedRecord => true := rfl
    show d = d.filter (maxCond none)
    rw [h, List.filter_true]
  | some s =>
    cases h : jsParseInt s with
    | none =>
      have hc : maxCond (some s) = fun _ : AnalyzedRecord => true := by
        funext r; simp [maxCond, h]
      simp [maxStage, h, hc, List.filter_true]
    | some n =>
      have hc : maxCond (some s) =
          fun r : AnalyzedRecord => decide ((r.properties.length : Int) ≤ n) := by
        funext r; simp [maxCond, h]
      simp [maxStage, h, hc]

theorem wcStage_eq (o : Option (List Char)) (d : List AnalyzedRecord) :
    wcStage o d = d.filter (wcCond o) := by
  cases o with
  | none =>
    have h : wcCond none = fun _ : AnalyzedRecord => true := rfl
    show d = d.filter (wcCond none)
    rw [h, List.filter_true]
  | some s =>
    cases h : jsParseInt s with
    | none =>
      have hc : wcCond (some s) = fun _ : AnalyzedRecord => true := by
        funext r; simp [wcCond, h]
      simp [wcStage, h, hc, List.filter_true]
    | some n =>
      have hc : wcCond (some s) =
          fun r : AnalyzedRecord => decide ((r.properties.word_count : Int) = n) := by
        funext r; simp [wcCond, h]
      simp [wcStage, h, hc]

theorem contStage_eq (o : Option (List Char)) (d : List AnalyzedRecord) :
    contStage o d = d.filter (contCond o) := by
  cases o with
  | none =>
    have h : contCond none = fun _ : AnalyzedRecord => true := rfl
    show d = d.filter (contCond none)
    rw [h, List.filter_true]
  | some s =>
    cases h : s.isEmpty with
    | true =>
      have hc : contCond (some s) = fun _ : AnalyzedRecord => true := by
        funext r; simp [contCond, h]
      simp [contStage, h, hc, List.filter_true]
    | false =>
      have hc : contCond (some s) =
          fun r : AnalyzedRecord => listContainsSub (lowerStr s) (lowerStr r.value) := by
        funext r; simp [contCond, h]
      simp [contStage, h, hc]

theorem filterTwice {α : Type} (p q : α → Bool) (l : List α) :
    (l.filter p).filter q = l.filter (fun a => p a && q a) := by
  induction l with
  | nil => rfl
  | cons a t ih =>
    by_cases hp : p a = true
    · by_cases hq : q a = true
      · simp [List.filter_cons, hp, hq, ih]
      · simp [List.filter_cons, hp, hq, ih]
    · simp [List.filter_cons, hp, ih]

theorem applyFilters_eq (d : List AnalyzedRecord) (f : QueryFilters) :
    applyFilters d f = d.filter (satisfiesAll f) := by
  unfold applyFilters
  rw [palStage_eq, minStage_eq, maxStage_eq, wcStage_eq, contStage_eq,
    filterTwice, filterTwice, filterTwice, filterTwice]
  rfl

theorem toNat_ofNat_valid (n : Nat) (h : n.isValidChar) : (Char.ofNat n).toNat = n := by
  simp only [Char.ofNat, h, dif_pos, Char.toNat, Char.ofNatAux, UInt32.toNat,
    BitVec.toNat_ofNatLt]

theorem jsToLower_not_upper (c : Char) :
    (65 ≤ (jsToLower c).toNat && (jsToLower c).toNat ≤ 90) = false := by
  unfold jsToLower
  split
  next h =>
    have hb : 65 ≤ c.toNat ∧ c.toNat ≤ 90 := by simpa using h
    have hv : (c.toNat + 32).isValidChar := Or.inl (by omega)
    rw [toNat_ofNat_valid _ hv]
    simp only [Bool.and_eq_false_iff, decide_eq_false_iff_not, not_le]
    omega
  next h => simpa using h

theorem sanitize_eq_spec (value : List Char) :
    sanitize (lowerStr value) = specStrip value := by
  unfold sanitize specStrip
  apply List.filter_congr
  intro c hc
  obtain ⟨x, hx, hcx⟩ := List.mem_map.mp hc
  have hnu := jsToLower_not_upper x
  rw [← hcx]
  simp only [isLowerAlnum, hnu, Bool.or_false, Bool.false_or]

/-- Claim C4 (confirmed): `is_palindrome` is true iff lower-casing the value
and deleting every character that is not an ASCII letter or digit leaves a
non-empty string equal to its own reversal; in particular a value that is
all punctuation is never a palindrome. -/
theorem palindrome_characterization (sha : List Char → List Char) (value : List Char) :
    (analyzeString sha value).properties.is_palindrome = true ↔
      (specStrip value ≠ [] ∧ specStrip value = (specStrip value).reverse) := by
  show ((sanitize (lowerStr value) == (sanitize (lowerStr value)).reverse) &&
      decide (0 < (sanitize (lowerStr value)).length)) = true ↔ _
  rw [sanitize_eq_spec]
  simp only [Bool.and_eq_true, beq_iff_eq, decide_eq_true_eq, List.length_pos]
  exact And.comm

/-- Claim C1, counterexample: `analyze` on the single astral code point
U+1F600 reports length 2 (UTF-16 code units), while the code-point count of
the trimmed string is 1 — so length is not the code-point count. -/
theorem length_counterexample :
    (analyze (fun l => l) litEmojiG).properties.length = 2 ∧
    (jsTrim litEmojiG).length = 1 := by decide

/-- Claim C1 (corrected): the length property is the UTF-16 code-unit count
of the trimmed value, which coincides with the code-point count exactly when
every code point of the trimmed value is below U+10000. -/
theorem length_amended (sha : List Char → List Char) (s : List Char)
    (h : ∀ c ∈ jsTrim s, c.toNat < 65536) :
    (analyze sha s).properties.length = (jsTrim s).length ∧
    (analyze sha s).properties.length = utf16Len (jsTrim s) :=
  ⟨utf16_bmp (jsTrim s) h, rfl⟩

theorem length_witness :
    (analyze (fun l => l) litHiPad).properties.length = (jsTrim litHiPad).length ∧
    (analyze (fun l => l) litHiPad).properties.length = utf16Len (jsTrim litHiPad) :=
  length_amended (fun l => l) litHiPad (by decide)

/-- Claim C5, counterexample: for the single astral code point U+1F642 the
frequency map iterates code points (sum of counts 1) while the length
property counts UTF-16 units (2), so the sum differs from `length`. -/
theorem freq_counterexample :
    sumCounts ((analyzeString (fun l => l) litEmojiS).properties.character_frequency) = 1 ∧
    (analyzeString (fun l => l) litEmojiS).properties.length = 2 := by decide

/-- Claim C5 (corrected): the sum of the occurrence counts equals the
code-point count of the value — hence equals the length property exactly
when every code point is below U+10000 — and `unique_characters` always
equals the number of (pairwise distinct) keys of the frequency map. -/
theorem freq_amended (sha : List Char → List Char) (v : List Char) :
    sumCounts ((analyzeString sha v).properties.character_frequency) = v.length ∧
    ((∀ c ∈ v, c.toNat < 65536) →
      sumCounts ((analyzeString sha v).properties.character_frequency) =
        (analyzeString sha v).properties.length) ∧
    (analyzeString sha v).properties.unique_characters =
      (keysOf ((analyzeString sha v).properties.character_frequency)).length ∧
    (keysOf ((analyzeString sha v).properties.character_frequency)).Nodup := by
  refine ⟨sum_freq v, ?_, ?_, nodup_keys_freq v⟩
  · intro h
    have h1 := sum_freq v
    have h2 := utf16_bmp v h
    show sumCounts (freqMap v) = utf16Len v
    rw [h1, h2]
  · show (freqMap v).length = (keysOf (freqMap v)).length
    unfold keysOf
    rw [List.length_map]

theorem freq_witness :
    sumCounts ((analyzeString (fun l => l) litHi).properties.character_frequency) =
      litHi.length ∧
    sumCounts ((analyzeString (fun l => l) litHi).properties.character_frequency) =
      (analyzeString (fun l => l) litHi).properties.length := by
  have h := freq_amended (fun l => l) litHi
  exact ⟨h.1, h.2.1 (by decide)⟩

/-- Claim C2, counterexample: in variant 1 the single combined length regex
matches only the first length phrase of
"strings longer than 20 but shorter than 5", so the parse yields the filter
set with just `min_length = 21` — a FilterSet, not a ConflictError. -/
theorem conflict_counterexample :
    parseNaturalLanguage_v1 queryConf = NLResult.ok { min_length := some 21 } := by decide

/-- Claim C2 (corrected): in variant 2, whenever both the longer-than and
shorter-than rules fire (and the exactly-N rule does not override them) with
resulting `min_length > max_length`, the parser returns the conflict result
instead of a filter set. -/
theorem conflict_amended (query : List Char) (n m : Nat)
    (hl : longerScan (jsTrim (lowerStr query)) = some n)
    (hs : shorterScan (jsTrim (lowerStr query)) = some m)
    (hx : exactlyScan (jsTrim (lowerStr query)) = none)
    (hc : (m : Int) - 1 < (n : Int) + 1) :
    parseNaturalLanguage_v2 query = NLResult.conflict := by
  have hne : (jsTrim (lowerStr query)).isEmpty = false := by
    cases hq : jsTrim (lowerStr query) with
    | nil => rw [hq] at hl; simp [longerScan, scanBd] at hl
    | cons a t => rfl
  unfold parseNaturalLanguage_v2
  simp only [hne, Bool.false_eq_true, if_false]
  unfold conflictCheck nlFilters_v2
  simp only [hl, hs, hx]
  rw [if_pos hc]

theorem conflict_witness : parseNaturalLanguage_v2 queryConf = NLResult.conflict :=
  conflict_amended queryConf 20 5 (by decide) (by decide) (by decide) (by decide)

/-- Claim C6, counterexample: variant 1 reads only capture group 1 of its
four-alternative regex, so "has the letter z" (group 3) sets no
`contains_character` filter at all — the parse result is the empty filter
set, not `contains_character = z`. -/
theorem contains_counterexample :
    parseNaturalLanguage_v1 queryHasZ = NLResult.ok {} := by decide

/-- Claim C6 (corrected): in variant 2, when the contains-character regex
captures `c` from the (lower-cased, trimmed) query and the `first vowel`
heuristic does not fire (it would overwrite the filter with `a`), any filter
set the parser returns carries `contains_character = c`. -/
theorem contains_amended (query : List Char) (c : Char) (f : NLFilters)
    (h1 : containsScan_v2 (jsTrim (lowerStr query)) = some c)
    (h2 : firstVowelTest (jsTrim (lowerStr query)) = false)
    (h3 : parseNaturalLanguage_v2 query = NLResult.ok f) :
    f.contains_character = some c := by
  have hne : (jsTrim (lowerStr query)).isEmpty = false := by
    cases hq : jsTrim (lowerStr query) with
    | nil => rw [hq] at h1; simp [containsScan_v2, scanPlain] at h1
    | cons a t => rfl
  unfold parseNaturalLanguage_v2 at h3
  simp only [hne, Bool.false_eq_true, if_false] at h3
  unfold conflictCheck at h3
  split at h3
  · split at h3
    · cases h3
    · cases h3
      simp only [nlFilters_v2, h2, Bool.false_eq_true, if_false]
      exact h1
  · cases h3
    simp only [nlFilters_v2, h2, Bool.false_eq_true, if_false]
    exact h1

theorem contains_witness :
    parseNaturalLanguage_v2 queryContZ = NLResult.ok { contains_character := some 'z' } ∧
    ({ contains_character := some 'z' } : NLFilters).contains_character = some 'z' :=
  ⟨by decide,
   contains_amended queryContZ 'z' { contains_character := some 'z' }
     (by decide) (by decide) (by decide)⟩

/-- Claim C7, counterexample: variant 1 only checks for the substring
"single word"; the query "one word" parses to the empty filter set, not to
`word_count = 1`. -/
theorem word_counterexample :
    parseNaturalLanguage_v1 queryOneWord = NLResult.ok {} := by decide

/-- Claim C7 (corrected): in variant 2, when `\b(single|one)\s+word\b`
matches the (lower-cased, trimmed) query, any filter set the parser returns
carries `word_count = 1`. -/
theorem word_amended (query : List Char) (f : NLFilters)
    (h1 : singleOneScan (jsTrim (lowerStr query)) = true)
    (h2 : parseNaturalLanguage_v2 query = NLResult.ok f) :
    f.word_count = some 1 := by
  have hne : (jsTrim (lowerStr query)).isEmpty = false := by
    cases hq : jsTrim (lowerStr query) with
    | nil => rw [hq] at h1; simp [singleOneScan, scanBd] at h1
    | cons a t => rfl
  unfold parseNaturalLanguage_v2 at h2
  simp only [hne, Bool.false_eq_true, if_false] at h2
  unfold conflictCheck at h2
  split at h2
  · split at h2
    · cases h2
    · cases h2
      simp only [nlFilters_v2, h1, if_true]
  · cases h2
    simp only [nlFilters_v2, h1, if_true]

theorem word_witness :
    parseNaturalLanguage_v2 queryOneWordPal = NLResult.ok { word_count := some 1 } ∧
    ({ word_count := some 1 } : NLFilters).word_count = some 1 :=
  ⟨by decide,
   word_amended queryOneWordPal { word_count := some 1 } (by decide) (by decide)⟩

/-- Claim C8 (confirmed): `applyFilters` equals a single pass keeping
exactly the records that satisfy the conjunction of the per-filter
predicates (an absent filter contributes `true`), it is an order-preserving
subsequence (sublist) of its input, and the empty filter set excludes no
record. -/
theorem filter_engine_characterization (d : List AnalyzedRecord) (f : QueryFilters) :
    applyFilters d f = d.filter (satisfiesAll f) ∧
    (applyFilters d f).Sublist d ∧
    applyFilters d {} = d := by
  refine ⟨applyFilters_eq d f, ?_, rfl⟩
  rw [applyFilters_eq]
  exact List.filter_sublist d

/-- Claim C9 (confirmed): a numeric filter value that is present but does
not parse as an integer (`parseInt` NaN) is silently skipped — the result
is the same as with the filter absent. -/
theorem invalid_filter_skipped (d : List AnalyzedRecord) (f : QueryFilters) (s : List Char)
    (h : jsParseInt s = none) :
    applyFilters d { f with min_length := some s } =
      applyFilters d { f with min_length := none } ∧
    applyFilters d { f with max_length := some s } =
      applyFilters d { f with max_length := none } ∧
    applyFilters d { f with word_count := some s } =
      applyFilters d { f with word_count := none } := by
  refine ⟨?_, ?_, ?_⟩
  · unfold applyFilters
    simp only [minStage, h]
  · unfold applyFilters
    simp only [maxStage, h]
  · unfold applyFilters
    simp only [wcStage, h]

theorem invalid_filter_witness :
    applyFilters [recHi] { ({} : QueryFilters) with min_length := some litAbc } =
      applyFilters [recHi] { ({} : QueryFilters) with min_length := none } ∧
    applyFilters [recHi] { ({} : QueryFilters) with max_length := some litAbc } =
      applyFilters [recHi] { ({} : QueryFilters) with max_length := none } ∧
    applyFilters [recHi] { ({} : QueryFilters) with word_count := some litAbc } =
      applyFilters [recHi] { ({} : QueryFilters) with word_count := none } :=
  invalid_filter_skipped [recHi] {} litAbc (by decide)

/-- Claim C3, counterexample: the first create can fail, in two ways.  For
the whitespace-only value "   " it fails with the empty-after-trim
rejection; and in the value-keyed variant (`keyOf` the identity) the value
"constructor" fails its FIRST create with Duplicate on the empty store,
because `stringStore["constructor"]` finds the inherited
`Object.prototype.constructor` and is truthy. -/
theorem create_counterexample :
    createStringChain (fun l => l) (fun l => l) [] litWsOnly =
      ([], CreateResult.emptyValue) ∧
    createStringChain (fun l => l) (fun l => l) [] litConstructor =
      ([], CreateResult.duplicate) := by
  decide

/-- Claim C3 (corrected): for every value whose trim is non-empty and whose
storage key is neither stored nor truthy through the prototype chain (the
real duplicate check `stringStore[key]` also sees the `Object.prototype`
names), the first create succeeds and appends the analyzed record; a second
create of any value with the same trim then fails with Duplicate and leaves
the store unchanged; and in general every non-created outcome leaves the
store unchanged (no partial failure).  Proved for an arbitrary keying
discipline `keyOf` of the trimmed value, covering both the fingerprint-keyed
and the value-keyed variant. -/
theorem create_amended (sha keyOf : List Char → List Char) (store : StoreT) (v : List Char)
    (h1 : jsTrim v ≠ []) (h2 : jsObjTruthy store (keyOf (jsTrim v)) = false) :
    createStringChain sha keyOf store v =
      (store ++ [(keyOf (jsTrim v), analyzeString sha (jsTrim v))],
       CreateResult.created (analyzeString sha (jsTrim v))) ∧
    (∀ w, jsTrim w = jsTrim v →
      createStringChain sha keyOf
          (store ++ [(keyOf (jsTrim v), analyzeString sha (jsTrim v))]) w =
        (store ++ [(keyOf (jsTrim v), analyzeString sha (jsTrim v))],
         CreateResult.duplicate)) ∧
    (∀ s2 w, (∀ r, (createStringChain sha keyOf s2 w).2 ≠ CreateResult.created r) →
      (createStringChain sha keyOf s2 w).1 = s2) := by
  have hE := isEmpty_false_of_ne _ h1
  refine ⟨?_, ?_, ?_⟩
  · unfold createStringChain
    simp [hE, h2]
  · intro w hw
    have hlk : List.lookup (keyOf (jsTrim v)) store = none := by
      unfold jsObjTruthy at h2
      cases hcase : List.lookup (keyOf (jsTrim v)) store with
      | none => rfl
      | some r => rw [hcase] at h2; simp at h2
    have htr : jsObjTruthy (store ++ [(keyOf (jsTrim v), analyzeString sha (jsTrim v))])
        (keyOf (jsTrim v)) = true := by
      unfold jsObjTruthy
      rw [lookup_append_self store (keyOf (jsTrim v)) (analyzeString sha (jsTrim v)) hlk]
      rfl
    unfold createStringChain
    rw [hw]
    simp [hE, htr]
  · intro s2 w hres
    cases hE2 : (jsTrim w).isEmpty with
    | true => simp [createStringChain, hE2]
    | false =>
      cases htr : jsObjTruthy s2 (keyOf (jsTrim w)) with
      | true => simp [createStringChain, hE2, htr]
      | false =>
        exfalso
        apply hres (analyzeString sha (jsTrim w))
        simp [createStringChain, hE2, htr]

theorem create_witness :
    createStringChain (fun l => l) (fun l => l) [] litHi =
      ([] ++ [((fun l : List Char => l) (jsTrim litHi),
               analyzeString (fun l => l) (jsTrim litHi))],
       CreateResult.created (analyzeString (fun l => l) (jsTrim litHi))) ∧
    createStringChain (fun l => l) (fun l => l)
        ([] ++ [((fun l : List Char => l) (jsTrim litHi),
                 analyzeString (fun l => l) (jsTrim litHi))]) litHiPad =
      ([] ++ [((fun l : List Char => l) (jsTrim litHi),
               analyzeString (fun l => l) (jsTrim litHi))],
       CreateResult.duplicate) := by
  have h := create_amended (fun l => l) (fun l => l) [] litHi (by decide) (by decide)
  exact ⟨h.1, h.2.1 litHiPad (by decide)⟩

/-- Claim C10 (confirmed): in every reachable store state, every stored
record's value equals its own trim, is non-empty, and has length and
word-count properties at least 1.  Proved for an arbitrary keying
discipline, covering both variants. -/
theorem store_invariant (sha keyOf : List Char → List Char) (s : StoreT)
    (h : Reachable sha keyOf s) :
    ∀ p ∈ s, jsTrim p.2.value = p.2.value ∧ p.2.value ≠ [] ∧
      1 ≤ p.2.properties.length ∧ 1 ≤ p.2.properties.word_count := by
  induction h with
  | init => intro p hp; cases hp
  | create s v hs ih =>
    intro p hp
    cases hE : (jsTrim v).isEmpty with
    | true =>
      simp only [createString, hE, if_true] at hp
      exact ih p hp
    | false =>
      cases hlk : List.lookup (keyOf (jsTrim v)) s with
      | some r =>
        simp only [createString, hE, Bool.false_eq_true, if_false, hlk] at hp
        exact ih p hp
      | none =>
        simp only [createString, hE, Bool.false_eq_true, if_false, hlk,
          List.mem_append, List.mem_singleton] at hp
        rcases hp with hp | hp
        · exact ih p hp
        · have hv : jsTrim v ≠ [] := by
            intro hnil
            rw [hnil] at hE
            cases hE
          subst hp
          exact ⟨jsTrim_idem v, hv, utf16_pos _ hv, wc_pos _ (jsTrim_nonws v hv)⟩
  | del s k hs ih =>
    intro p hp
    cases hlk : List.lookup k s with
    | none =>
      simp only [deleteString, hlk] at hp
      exact ih p hp
    | some r =>
      simp only [deleteString, hlk, List.mem_filter] at hp
      exact ih p hp.1

theorem store_invariant_witness :
    jsTrim (analyzeString (fun l => l) (jsTrim litHi)).value =
      (analyzeString (fun l => l) (jsTrim litHi)).value ∧
    1 ≤ (analyzeString (fun l => l) (jsTrim litHi)).properties.word_count := by
  have h := store_invariant (fun l => l) (fun l => l) _
    (Reachable.create [] litHi Reachable.init)
  have hm : ((fun l : List Char => l) (jsTrim litHi),
      analyzeString (fun l => l) (jsTrim litHi)) ∈
      (createString (fun l => l) (fun l => l) [] litHi).1 := by decide
  have h2 := h _ hm
  exact ⟨h2.1, h2.2.2.2⟩
